import Mathlib

/-!
Verification development for the Temple Law chatbot server
(`server/index.mjs` = `src/ctlawserver.js`, `server/indexer.mjs` =
`src/unnamed/part_001`, `server/extract.mjs`, `server/embeddings.mjs`).

JavaScript strings are modelled as `List Char` (`Str` below); JavaScript
numbers appearing in scores and thresholds are modelled as exact rationals
`ℚ`; `Math.sqrt` (used only inside `cosine`) is kept as an explicit function
parameter because exact square roots do not exist on `ℚ` — every property
proved about `cosine` holds for an arbitrary `sqrt`.  External collaborators
(MongoDB query results, the OpenAI embedding / normalization / generation
calls, `crypto.randomUUID`) are supplied as oracle inputs in `AskEnv`; the
pure orchestration logic between those calls is translated directly from the
source.
-/

namespace TempleLaw

/-- JavaScript strings as character lists. -/
abbrev Str := List Char

/-- Coerce a Lean string literal into the model's string type. -/
def str (s : String) : Str := s.toList

/-- `s.toLowerCase()`. -/
def jsToLower (s : Str) : Str := s.map Char.toLower

/-- `s.trim()`: strip whitespace from both ends. -/
def jsTrim (s : Str) : Str :=
  ((s.dropWhile Char.isWhitespace).reverse.dropWhile Char.isWhitespace).reverse

/-- Auxiliary substring search: does `sub` occur inside the remaining hay? -/
def containsSubAux (sub : Str) : Str → Bool
  | [] => sub.isEmpty
  | c :: t => sub.isPrefixOf (c :: t) || containsSubAux sub t

/-- Case-insensitive substring test, modelling `/pat/i.test(s)` and
`s.toLowerCase().includes(pat)` for a literal pattern. -/
def containsCI (s sub : Str) : Bool := containsSubAux (jsToLower sub) (jsToLower s)

/-- `[...new Set(l)]`: deduplicate keeping first occurrences, in order. -/
def jsDedupAux {α : Type} [DecidableEq α] (seen : List α) : List α → List α
  | [] => []
  | a :: t => if a ∈ seen then jsDedupAux seen t else a :: jsDedupAux (a :: seen) t

/-- JS `Set` insertion-order deduplication. -/
def jsDedup {α : Type} [DecidableEq α] (l : List α) : List α := jsDedupAux [] l

/-- `String.prototype.split(sep-predicate)`: cut at every char satisfying `p`. -/
def splitPAux (p : Char → Bool) : Str → Str → List Str
  | [], acc => [acc.reverse]
  | c :: t, acc => if p c then acc.reverse :: splitPAux p t [] else splitPAux p t (c :: acc)

/-- Split a string at every character satisfying `p`. -/
def splitP (p : Char → Bool) (s : Str) : List Str := splitPAux p s []

/-- Truthiness of an optional string (JS: `undefined`, `null` and `""` are falsy). -/
def truthyS : Option Str → Bool
  | none => false
  | some s => !(s.isEmpty)

/-- JS nullish coalescing `a ?? b` on optional strings. -/
def jsNullish (a b : Option Str) : Option Str :=
  match a with
  | some s => some s
  | none => b

/-- `updateOne`-style list update: rewrite the first element satisfying `p`. -/
def updateFirst {α : Type} (p : α → Bool) (f : α → α) : List α → List α
  | [] => []
  | a :: t => if p a then f a :: t else a :: updateFirst p f t

/-! ## Chunker (`server/extract.mjs`, `chunkText`)

```js
export function chunkText(s, max = 2000, overlap = 250) {
    const out = []; const step = Math.max(1, max - overlap);
    for (let i = 0; i < s.length; i += step) {
        out.push(s.slice(i, i + max));
        if (i + max >= s.length) break;
    }
    return out;
}
```

The loop is translated with a fuel argument (`s.length + 1` is always enough
fuel because `i` strictly increases while `i < s.length`), keeping the
definition structurally recursive so that it evaluates inside the kernel. -/

/-- One iteration layer of the `chunkText` loop. -/
def chunkTextAux (s : Str) (mx ov : Nat) : Nat → Nat → List Str
  | 0, _ => []
  | fuel + 1, i =>
    if i < s.length then
      let c := (s.drop i).take mx
      if s.length ≤ i + mx then [c]
      else c :: chunkTextAux s mx ov fuel (i + Nat.max 1 (mx - ov))
    else []

/-- `chunkText(s, max, overlap)` from `server/extract.mjs`. -/
def chunkText (s : Str) (mx ov : Nat) : List Str := chunkTextAux s mx ov (s.length + 1) 0

/-! ## Similarity Engine (`server/embeddings.mjs`, `cosine`)

```js
export function cosine(a, b) {
    let dot = 0, na = 0, nb = 0;
    const n = Math.min(a.length, b.length);
    for (let i = 0; i < n; i++) { dot += a[i] * b[i]; na += a[i] * a[i]; nb += b[i] * b[i]; }
    return (na && nb) ? dot / (Math.sqrt(na) * Math.sqrt(nb)) : 0;
}
```

All three accumulators range over `i < min(a.length, b.length)`, which is
exactly the index range of `a.zip b`. -/

/-- `cosine(a, b)`; `sqrt` stands for `Math.sqrt`. -/
def cosine (sqrt : ℚ → ℚ) (a b : List ℚ) : ℚ :=
  let p := a.zip b
  let dot := (p.map (fun x => x.1 * x.2)).sum
  let na := (p.map (fun x => x.1 * x.1)).sum
  let nb := (p.map (fun x => x.2 * x.2)).sum
  if na ≠ 0 ∧ nb ≠ 0 then dot / (sqrt na * sqrt nb) else 0

/-! ## Corpus Indexer (`server/indexer.mjs`, `indexUrl`)

The store-mutating tail of `indexUrl` (after the fetch succeeded and
`extractCore` produced `(text, title)`), acting on an explicit document
store.  `sha256Hex` and `embed` are external collaborators, passed as
function parameters `hashF` and `embedF`; timestamps are `Nat`. -/

/-- A `pages` collection document. -/
structure PageRec where
  url : Str
  title : Str
  hash : Str
  updatedAt : Nat
deriving DecidableEq

/-- A `chunks` collection document. -/
structure ChunkRec where
  url : Str
  text : Str
  idx : Nat
  embedding : List ℚ
deriving DecidableEq

/-- The document store slice touched by the indexer. -/
structure Store where
  pages : List PageRec
  chunks : List ChunkRec
deriving DecidableEq

/-- Per-url outcome of `indexUrl` from the content-hash step onward. -/
inductive IndexStatus where
  | added
  | updated
  | unchanged
  | tooShort
deriving DecidableEq

/-- `pages.updateOne({url}, {$set: {...}}, {upsert: true})`. -/
def upsertPage (pages : List PageRec) (url title hash : Str) (now : Nat) : List PageRec :=
  if pages.any (fun p => p.url == url) then
    updateFirst (fun p => p.url == url)
      (fun p => { p with title := title, hash := hash, updatedAt := now }) pages
  else pages ++ [{ url := url, title := title, hash := hash, updatedAt := now }]

/-- `indexUrl(db, url, deny)` from the too-short check onward:

```js
    if (!text || text.length < 80) return { url, skipped: true, reason: "too-short" };
    const hash = sha256Hex(text);
    const prior = await pages.findOne({ url });
    if (prior && prior.hash === hash) {
        await pages.updateOne({ _id: prior._id }, { $set: { updatedAt: new Date() } });
        return { url, status: "unchanged", chunks: 0 };
    }
    await chunksCol.deleteMany({ url });
    const chunks = chunkText(text, 2000, 250).slice(0, 6);
    for (let i = 0; i < chunks.length; i++) {
        const e = await embed(chunks[i]);
        await chunksCol.insertOne({ url, text: chunks[i], idx: i, embedding: e });
    }
    await pages.updateOne({ url }, { $set: { url, title, hash, updatedAt: new Date() } }, { upsert: true });
    return { url, status: prior ? "updated" : "added", chunks: added };
``` -/
def indexUrlCore (st : Store) (url text title : Str)
    (hashF : Str → Str) (embedF : Str → List ℚ) (now : Nat) : Store × IndexStatus :=
  if text.length < 80 then (st, .tooShort)
  else
    let hash := hashF text
    let prior := st.pages.find? (fun p => p.url == url)
    match prior with
    | some pr =>
      if pr.hash == hash then
        let pages := updateFirst (fun p => p.url == url) (fun p => { p with updatedAt := now }) st.pages
        ({ st with pages := pages }, .unchanged)
      else
        let remaining := st.chunks.filter (fun c => !(c.url == url))
        let cs := (chunkText text 2000 250).take 6
        let newChunks := cs.enum.map (fun pc => ChunkRec.mk url pc.2 pc.1 (embedF pc.2))
        ({ pages := upsertPage st.pages url title hash now, chunks := remaining ++ newChunks }, .updated)
    | none =>
      let remaining := st.chunks.filter (fun c => !(c.url == url))
      let cs := (chunkText text 2000 250).take 6
      let newChunks := cs.enum.map (fun pc => ChunkRec.mk url pc.2 pc.1 (embedF pc.2))
      ({ pages := upsertPage st.pages url title hash now, chunks := remaining ++ newChunks }, .added)

/-! ## Query Resolver (`server/index.mjs`, `app.post("/ask")`)

The handler is translated as a pure function of the request body, the
relevant document-store collections, and an oracle environment `AskEnv`
standing for the external collaborators (MongoDB text-search results, the
OpenAI normalization / embedding / generation calls, and the
`crypto.randomUUID` stream, modelled as `uuid : Nat → Str` consumed in call
order).  The outcome records the HTTP response fields, the post-request
`sessions` collection, and which external services were invoked. -/

/-- A history entry of a session (`{ mid, role, content, sources, ts }`);
timestamps and request metadata are irrelevant to the claims and omitted. -/
structure Turn where
  mid : Str
  role : Str
  content : Str
  sources : List Str
deriving DecidableEq

/-- A `sessions` collection document. -/
structure Session where
  sid : Str
  history : List Turn
deriving DecidableEq

/-- A `chunks` document as projected by the retrieval queries
(`{ embedding: 1, text: 1, url: 1 }`). -/
structure ChunkDoc where
  url : Str
  text : Str
  embedding : List ℚ
deriving DecidableEq

/-- A ranked retrieval candidate (`{ url, text, score }`). -/
structure Scored where
  url : Str
  text : Str
  score : ℚ
deriving DecidableEq

/-- A `faq_overrides` collection document. -/
structure OverrideDoc where
  question : Str
  normQuestion : Str
  answer : Option Str
  assistantContent : Option Str
  force : Bool
  questionEmbedding : Option (List ℚ)
  reviewer : Option Str
deriving DecidableEq

/-- Oracle environment: results of all external calls made by `/ask`.
`cos` stands for the floating-point `cosine` routine; `uuid n` is the value
returned by the `n`-th `crypto.randomUUID()` call of the request. -/
structure AskEnv where
  normalizeResult : Option Str
  qvec : List ℚ
  cos : List ℚ → List ℚ → ℚ
  textSearch : Option (List ChunkDoc)
  regexFallback : List ChunkDoc
  keywordExtras : List ChunkDoc
  envDocs : List ChunkDoc
  allSample : List ChunkDoc
  deepDocs : List ChunkDoc
  shallowDocs : List ChunkDoc
  genAnswer : Str
  uuid : Nat → Str

/-- Everything observable about one `/ask` request: the JSON response, the
post-request `sessions` collection, and which external services ran. -/
structure AskOutcome where
  status : Nat
  sid : Str
  answer : Str
  sources : List Str
  mid : Str
  errorMsg : Option Str
  sessions : List Session
  normalizeCalled : Bool
  embedCalled : Bool
  genCalled : Bool
  semanticRan : Bool
deriving DecidableEq

/-- `appendTurn` body: `updateOne({sid}, {$setOnInsert…, $push: {history: turn}}, {upsert:true})`. -/
def pushTurn (sessions : List Session) (sid : Str) (t : Turn) : List Session :=
  if sessions.any (fun s => s.sid == sid) then
    updateFirst (fun s => s.sid == sid) (fun s => { s with history := s.history ++ [t] }) sessions
  else sessions ++ [{ sid := sid, history := [t] }]

/-- `/^(explain|tell|say)\s+more/i.test(query)`. -/
def isExplainMore (q : Str) : Bool :=
  let l := jsToLower q
  [str "explain", str "tell", str "say"].any (fun w =>
    w.isPrefixOf l &&
      (let rest := l.drop w.length
       match rest with
       | [] => false
       | c :: _ => c.isWhitespace && (str "more").isPrefixOf (rest.dropWhile Char.isWhitespace)))

/-- The "explain more" continuation expansion step. -/
def expandStep (sessions1 : List Session) (sid q : Str) : Str :=
  if isExplainMore q then
    match sessions1.find? (fun s => s.sid == sid) with
    | some s =>
      if s.history.isEmpty then q
      else
        let lastAssistant := s.history.reverse.find? (fun h =>
          h.role == str "assistant" && !(h.content.isEmpty) && !(containsCI h.content (str "conversation reset")))
        let lastUser := s.history.reverse.find? (fun h =>
          h.role == str "user" && !(h.content.isEmpty) && !(h.content == q))
        let parts : List Str := [
          (match lastUser with
           | some h => str "Previous question: " ++ h.content
           | none => []),
          (match lastAssistant with
           | some h => str "Previous answer: " ++ h.content
           | none => [])]
        let ctx := List.intercalate (str "\n") (parts.filter (fun p => !(p.isEmpty)))
        str "Please elaborate on the previous topic.\n" ++ ctx
    | none => q
  else q

/-- Grammar normalization: fall back to the expanded query on empty output. -/
def normStep (normalizeResult : Option Str) (expandedQuery : Str) : Str :=
  match normalizeResult with
  | some t => if (jsTrim t).isEmpty then expandedQuery else jsTrim t
  | none => expandedQuery

/-- The static synonym table. -/
def synonyms (w : Str) : List Str :=
  if w == str "start" then [str "begin", str "open", str "commence"]
  else if w == str "finish" then [str "end", str "close"]
  else if w == str "tuition" then [str "fees", str "billing"]
  else if w == str "academic" then [str "school", str "semester", str "classes"]
  else if w == str "calendar" then [str "schedule", str "term", str "dates"]
  else if w == str "law" then [str "temple law", str "beasley school of law"]
  else if w == str "policy" then [str "rule", str "procedure"]
  else []

/-- Trigger for force-including environmental-law documents. -/
def envTrigger (normalizedQuery : Str) : Bool :=
  let qLower := jsToLower normalizedQuery
  containsSubAux (str "environmental law") qLower || containsSubAux (str "energy") qLower ||
    containsSubAux (str "climate") qLower || containsSubAux (str "sustainability") qLower

/-- Stable insertion preserving descending score order, modelling the stable
JS `sort((a, b) => b.score - a.score)`. -/
def insertDesc (x : Scored) : List Scored → List Scored
  | [] => [x]
  | y :: t => if y.score ≤ x.score then x :: y :: t else y :: insertDesc x t

/-- Stable descending sort by score. -/
def sortDesc : List Scored → List Scored
  | [] => []
  | x :: t => insertDesc x (sortDesc t)

/-- Candidate assembly and ranking: keyword expansion, lexical prefilter,
enrichment pools, cosine ranking, and the deep-retrieval escalation. -/
def rankedCandidates (env : AskEnv) (sessions1 : List Session) (sid normalizedQuery : Str) :
    List Scored :=
  let words := jsDedup ((splitP (fun c => !c.isAlphanum) (jsToLower normalizedQuery)).filter
    (fun w => 3 ≤ w.length))
  let expandedWords := jsDedup (words ++ words.flatMap synonyms)
  let pf0 : List ChunkDoc :=
    if expandedWords.isEmpty then []
    else match env.textSearch with
      | some l => l
      | none => env.regexFallback
  let pf1 := if pf0.length < 30 then pf0 ++ env.keywordExtras else pf0
  let pf2 :=
    if envTrigger normalizedQuery then
      if env.envDocs.isEmpty then pf1 else pf1 ++ env.envDocs
    else pf1
  let pf3 := if pf2.isEmpty then env.allSample else pf2
  let ranked := sortDesc (pf3.map (fun c => Scored.mk c.url c.text (env.cos env.qvec c.embedding)))
  let lowConfidence :=
    match ranked.head? with
    | none => true
    | some r => r.score < mkRat 45 100
  if lowConfidence then
    let hist :=
      match sessions1.find? (fun s => s.sid == sid) with
      | some s => s.history
      | none => []
    let lastAssistant := hist.reverse.find? (fun h => h.role == str "assistant")
    let deepMode : Bool :=
      match lastAssistant with
      | some h => containsCI h.content (str "i don\x27t know")
      | none => false
    let fallbackDocs := if deepMode then env.deepDocs else env.shallowDocs
    let rescored := fallbackDocs.map (fun d => Scored.mk d.url d.text (env.cos env.qvec d.embedding))
    ranked ++ (sortDesc rescored).take 15
  else ranked

/-- `MIN_SIM = 0.12`. -/
def MIN_SIM : ℚ := mkRat 12 100

/-- Top-candidate selection:
`let top = ranked.filter(r => r.score >= MIN_SIM).slice(0, 12); if (!top.length) top = ranked.slice(0, 12);`. -/
def selectTop (ranked : List Scored) : List Scored :=
  let top := (ranked.filter (fun r => MIN_SIM ≤ r.score)).take 12
  if top.isEmpty then ranked.take 12 else top

/-- `OVERRIDE_EMB_THRESHOLD = 0.82`. -/
def OVERRIDE_EMB_THRESHOLD : ℚ := mkRat 82 100

/-- Exact override lookup: whole-string case-insensitive match of the
normalized query against `normQuestion`, falling back to `question`
(`findOne({normQuestion: {$regex: qRegex}}) || findOne({question: {$regex: qRegex}})`
with `qRegex = ^escaped$` and the `i` flag). -/
def exactOverrideLookup (overrides : List OverrideDoc) (normQuery : Str) : Option OverrideDoc :=
  match overrides.find? (fun o => jsToLower o.normQuestion == jsToLower normQuery) with
  | some o => some o
  | none => overrides.find? (fun o => jsToLower o.question == jsToLower normQuery)

/-- The best-candidate loop of the semantic override lookup:
`for (const c of candidates) { … if (!best || sim > best.sim) best = { doc: c, sim }; }`. -/
def bestSemanticAux (cos : List ℚ → List ℚ → ℚ) (qvec : List ℚ) :
    List OverrideDoc → Option (OverrideDoc × ℚ) → Option (OverrideDoc × ℚ)
  | [], best => best
  | c :: t, best =>
    match c.questionEmbedding with
    | none => bestSemanticAux cos qvec t best
    | some e =>
      let sim := cos qvec e
      match best with
      | none => bestSemanticAux cos qvec t (some (c, sim))
      | some b => if b.2 < sim then bestSemanticAux cos qvec t (some (c, sim)) else bestSemanticAux cos qvec t best

/-- Semantic override lookup over the records carrying a `questionEmbedding`:
keep the single best cosine match, accept it only at or above the 0.82
threshold. -/
def semanticOverride (cos : List ℚ → List ℚ → ℚ) (qvec : List ℚ)
    (overrides : List OverrideDoc) : Option OverrideDoc :=
  let candidates := overrides.filter (fun o => o.questionEmbedding.isSome)
  match bestSemanticAux cos qvec candidates none with
  | some b => if OVERRIDE_EMB_THRESHOLD ≤ b.2 then some b.1 else none
  | none => none

/-- The forced-override return path: `makeMid()` produces the response `mid`,
then `appendTurn` internally draws its own `randomUUID()` for the stored
assistant turn. -/
def forcedOutcome (env : AskEnv) (sid : Str) (k1 : Nat) (sessions1 : List Session)
    (o : OverrideDoc) (semRan : Bool) : AskOutcome :=
  let answer := (jsNullish o.answer o.assistantContent).getD []
  let mid := env.uuid k1
  let turnMid := env.uuid (k1 + 1)
  let sessions2 := pushTurn sessions1 sid (Turn.mk turnMid (str "assistant") answer [str "Reviewed Answer"])
  { status := 200, sid := sid, answer := answer, sources := [str "Reviewed Answer"], mid := mid,
    errorMsg := none, sessions := sessions2,
    normalizeCalled := true, embedCalled := true, genCalled := false, semanticRan := semRan }

/-- The generation return path: one `randomUUID()` is drawn and used both in
the pushed assistant turn and in the response. -/
def genOutcome (env : AskEnv) (sid : Str) (k1 : Nat) (sessions1 : List Session)
    (top : List Scored) (semRan : Bool) : AskOutcome :=
  let answer := env.genAnswer
  let sources := top.map Scored.url
  let mid := env.uuid k1
  let sessions2 := pushTurn sessions1 sid (Turn.mk mid (str "assistant") answer sources)
  { status := 200, sid := sid, answer := answer, sources := sources, mid := mid,
    errorMsg := none, sessions := sessions2,
    normalizeCalled := true, embedCalled := true, genCalled := true, semanticRan := semRan }

/-- Decision policy: forced exact override → forced return; any other exact
match suppresses the semantic lookup; a semantic match at threshold is
returned only when itself forced; everything else generates. -/
def askResolve (env : AskEnv) (sid : Str) (k1 : Nat) (sessions1 : List Session)
    (top : List Scored) (overrides : List OverrideDoc) (normQuery : Str) : AskOutcome :=
  match exactOverrideLookup overrides normQuery with
  | some o =>
    if o.force && (truthyS o.answer || truthyS o.assistantContent) then
      forcedOutcome env sid k1 sessions1 o false
    else if o.force then forcedOutcome env sid k1 sessions1 o false
    else genOutcome env sid k1 sessions1 top false
  | none =>
    match semanticOverride env.cos env.qvec overrides with
    | some o =>
      if o.force then forcedOutcome env sid k1 sessions1 o true
      else genOutcome env sid k1 sessions1 top true
    | none => genOutcome env sid k1 sessions1 top true

/-- The 400 response for an empty question: no store write, no external call. -/
def badOutcome (sessionsDb : List Session) : AskOutcome :=
  { status := 400, sid := [], answer := [], sources := [], mid := [],
    errorMsg := some (str "Empty question"), sessions := sessionsDb,
    normalizeCalled := false, embedCalled := false, genCalled := false, semanticRan := false }

/-- `const query = (q || "").trim()`. -/
def askQuery (q : Str) : Str := jsTrim q

/-- `const sid = clientSid || crypto.randomUUID()`. -/
def askSid (env : AskEnv) (clientSid : Option Str) : Str :=
  match clientSid with
  | some s => if s.isEmpty then env.uuid 0 else s
  | none => env.uuid 0

/-- Number of `randomUUID()` draws consumed by minting the session id. -/
def askK0 (clientSid : Option Str) : Nat :=
  match clientSid with
  | some s => if s.isEmpty then 1 else 0
  | none => 1

/-- The sessions collection after the user turn has been appended
(`appendTurn` draws its own `randomUUID()` for the turn id). -/
def askSessions1 (sessionsDb : List Session) (env : AskEnv) (q : Str) (clientSid : Option Str) :
    List Session :=
  pushTurn sessionsDb (askSid env clientSid)
    (Turn.mk (env.uuid (askK0 clientSid)) (str "user") (askQuery q) [])

/-- The normalized query text sent to embedding and retrieval. -/
def askNormalized (sessionsDb : List Session) (env : AskEnv) (q : Str) (clientSid : Option Str) :
    Str :=
  normStep env.normalizeResult
    (expandStep (askSessions1 sessionsDb env q clientSid) (askSid env clientSid) (askQuery q))

/-- The merged ranked candidate list of the request. -/
def askRanked (sessionsDb : List Session) (env : AskEnv) (q : Str) (clientSid : Option Str) :
    List Scored :=
  rankedCandidates env (askSessions1 sessionsDb env q clientSid) (askSid env clientSid)
    (askNormalized sessionsDb env q clientSid)

/-- The selected context chunks of the request. -/
def askTop (sessionsDb : List Session) (env : AskEnv) (q : Str) (clientSid : Option Str) :
    List Scored :=
  selectTop (askRanked sessionsDb env q clientSid)

/-- `const normQuery = (query || "").trim().toLowerCase()`. -/
def askNormQuery (q : Str) : Str := jsToLower (jsTrim (askQuery q))

/-- The full `/ask` request handler. -/
def ask (sessionsDb : List Session) (overrides : List OverrideDoc) (env : AskEnv)
    (q : Str) (clientSid : Option Str) : AskOutcome :=
  if (askQuery q).isEmpty then badOutcome sessionsDb
  else
    askResolve env (askSid env clientSid) (askK0 clientSid + 1)
      (askSessions1 sessionsDb env q clientSid) (askTop sessionsDb env q clientSid)
      overrides (askNormQuery q)

/-! ## Concrete instances used by witnesses and counterexamples -/

/-- A minimal oracle environment: no retrieval hits, trivial similarity,
uuid stream u0, u1, u2, … -/
def demoEnv : AskEnv :=
  { normalizeResult := none, qvec := [], cos := fun _ _ => 0, textSearch := some [],
    regexFallback := [], keywordExtras := [], envDocs := [], allSample := [],
    deepDocs := [], shallowDocs := [], genAnswer := str "gen",
    uuid := fun n => str "u" ++ str (toString n) }

/-- A forced override with a non-empty stored answer. -/
def demoForced : OverrideDoc :=
  { question := str "When is orientation", normQuestion := str "when is orientation",
    answer := some (str "September 1"), assistantContent := none, force := true,
    questionEmbedding := none, reviewer := none }

/-- A non-forced override exactly matching the query "What is X". -/
def c7A : OverrideDoc :=
  { question := str "What is X", normQuestion := str "what is x",
    answer := some (str "ans a"), assistantContent := none, force := false,
    questionEmbedding := none, reviewer := none }

/-- A forced override carrying a question embedding (a semantic candidate). -/
def c7B : OverrideDoc :=
  { question := str "Other", normQuestion := str "other",
    answer := some (str "ans b"), assistantContent := none, force := true,
    questionEmbedding := some [1], reviewer := none }

/-- Environment whose similarity oracle reports 1 for every pair. -/
def c7Env : AskEnv := { demoEnv with cos := fun _ _ => 1 }

/-- A stored page for the indexer witnesses. -/
def demoPage : PageRec :=
  { url := str "https://law.temple.edu/a", title := str "T", hash := str "h0", updatedAt := 0 }

/-- An 80-character extracted text (the minimum accepted length). -/
def demoText : Str := List.replicate 80 'a'

/-- A store holding the page and no chunks. -/
def demoStore : Store := { pages := [demoPage], chunks := [] }

/-- Hash oracle agreeing with the stored page hash. -/
def demoHashSame (_t : Str) : Str := str "h0"

/-- Hash oracle disagreeing with the stored page hash. -/
def demoHashNew (_t : Str) : Str := str "h1"

/-- Trivial embedding oracle. -/
def demoEmbed (_t : Str) : List ℚ := []

/-! ## Helper lemmas -/

/-- Rewriting the first matching element with `f` leaves any projection `g`
untouched whenever `g` is insensitive to `f`. -/
theorem map_updateFirst {α β : Type} (p : α → Bool) (f : α → α) (g : α → β)
    (hg : ∀ a, g (f a) = g a) : ∀ l : List α, (updateFirst p f l).map g = l.map g := by
  intro l
  induction l with
  | nil => rfl
  | cons a t ih =>
    by_cases hp : p a
    · simp [updateFirst, hp, hg]
    · simp [updateFirst, hp, ih]

/-- The freshly inserted chunk records all carry the indexed url. -/
theorem newChunks_filter_self (url : Str) (cs : List Str) (embedF : Str → List ℚ) :
    (cs.enum.map (fun pc => ChunkRec.mk url pc.2 pc.1 (embedF pc.2))).filter
        (fun c => c.url == url)
      = cs.enum.map (fun pc => ChunkRec.mk url pc.2 pc.1 (embedF pc.2)) := by
  rw [List.filter_eq_self]
  intro a ha
  simp only [List.mem_map] at ha
  obtain ⟨pc, _, rfl⟩ := ha
  simp

/-- The freshly inserted chunk records vanish under the other-url filter. -/
theorem newChunks_filter_not (url : Str) (cs : List Str) (embedF : Str → List ℚ) :
    (cs.enum.map (fun pc => ChunkRec.mk url pc.2 pc.1 (embedF pc.2))).filter
        (fun c => !(c.url == url)) = [] := by
  rw [List.filter_eq_nil_iff]
  intro a ha
  simp only [List.mem_map] at ha
  obtain ⟨pc, _, rfl⟩ := ha
  simp

/-- After `deleteMany({url})` no chunk for the url survives. -/
theorem remaining_filter_self (chunks : List ChunkRec) (url : Str) :
    (chunks.filter (fun c => !(c.url == url))).filter (fun c => c.url == url) = [] := by
  rw [List.filter_filter, List.filter_eq_nil_iff]
  intro a _
  simp [Bool.and_comm]

/-- `deleteMany({url})` is idempotent on the other-url filter. -/
theorem remaining_filter_not (chunks : List ChunkRec) (url : Str) :
    (chunks.filter (fun c => !(c.url == url))).filter (fun c => !(c.url == url))
      = chunks.filter (fun c => !(c.url == url)) := by
  rw [List.filter_filter]
  simp

/-- Positional characterization of the `chunkText` loop at window 2000 /
overlap 250: provided the fuel dominates the remaining length, the `j`-th
produced chunk is the 2000-character slice starting at offset `i + 1750·j`,
and every chunk except the last starts more than 2000 characters before the
end of the input. -/
theorem chunkTextAux_getElem (s : Str) :
    ∀ fuel i j, s.length - i < fuel → j < (chunkTextAux s 2000 250 fuel i).length →
      (chunkTextAux s 2000 250 fuel i)[j]? = some ((s.drop (i + 1750 * j)).take 2000) ∧
      (j + 1 < (chunkTextAux s 2000 250 fuel i).length → i + 1750 * j + 2000 < s.length) := by
  intro fuel
  induction fuel with
  | zero => intro i j hfi _; exact absurd hfi (Nat.not_lt_zero _)
  | succ f ih =>
    intro i j hfi hj
    by_cases hi : i < s.length
    · by_cases hend : s.length ≤ i + 2000
      · have hlist : chunkTextAux s 2000 250 (f + 1) i = [(s.drop i).take 2000] := by
          simp [chunkTextAux, hi, hend]
        rw [hlist] at hj ⊢
        have hj0 : j = 0 := by simpa using Nat.lt_one_iff.mp (by simpa using hj)
        subst hj0
        refine ⟨by simp, ?_⟩
        intro h1
        simp at h1
      · have hmax : Nat.max 1 (2000 - 250) = 1750 := by norm_num
        have hlist : chunkTextAux s 2000 250 (f + 1) i
            = (s.drop i).take 2000 :: chunkTextAux s 2000 250 f (i + 1750) := by
          simp [chunkTextAux, hi, hend, hmax]
        rw [hlist] at hj ⊢
        match j with
        | 0 =>
          refine ⟨by simp, ?_⟩
          intro _
          omega
        | j' + 1 =>
          have hj' : j' < (chunkTextAux s 2000 250 f (i + 1750)).length := by
            simpa using Nat.lt_of_succ_lt_succ hj
          have hfi' : s.length - (i + 1750) < f := by omega
          have hrec := ih (i + 1750) j' hfi' hj'
          have harith : i + 1750 + 1750 * j' = i + 1750 * (j' + 1) := by ring
          constructor
          · rw [List.getElem?_cons_succ, hrec.1, harith]
          · intro hsucc
            have := hrec.2 (by simpa using Nat.lt_of_succ_lt_succ hsucc)
            omega
    · have hlist : chunkTextAux s 2000 250 (f + 1) i = [] := by
        simp [chunkTextAux, hi]
      rw [hlist] at hj
      simp at hj

/-- Updating the first element matching `p` leaves every non-matching
element fully untouched, provided the update preserves `p`. -/
theorem filter_not_updateFirst {α : Type} (p : α → Bool) (f : α → α)
    (hf : ∀ a, p (f a) = p a) : ∀ l : List α,
    (updateFirst p f l).filter (fun a => !(p a)) = l.filter (fun a => !(p a)) := by
  intro l
  induction l with
  | nil => rfl
  | cons x t ih =>
    by_cases hp : p x = true
    · simp [updateFirst, hp, hf, List.filter_cons]
    · simp [updateFirst, hp, List.filter_cons, ih]

/-- Shape of the chunk store after the delete-then-reinsert rebuild. -/
theorem rebuild_chunks_spec (chunks : List ChunkRec) (url : Str) (cs : List Str)
    (embedF : Str → List ℚ) :
    ((chunks.filter (fun c => !(c.url == url)) ++
        cs.enum.map (fun pc => ChunkRec.mk url pc.2 pc.1 (embedF pc.2))).filter
          (fun c => c.url == url)).map (fun c => (c.idx, c.text)) = cs.enum ∧
    (chunks.filter (fun c => !(c.url == url)) ++
        cs.enum.map (fun pc => ChunkRec.mk url pc.2 pc.1 (embedF pc.2))).filter
          (fun c => !(c.url == url)) = chunks.filter (fun c => !(c.url == url)) ∧
    (∀ c ∈ chunks.filter (fun c => !(c.url == url)) ++
        cs.enum.map (fun pc => ChunkRec.mk url pc.2 pc.1 (embedF pc.2)),
      c.url = url → c.text ∈ cs) := by
  refine ⟨?_, ?_, ?_⟩
  · rw [List.filter_append, remaining_filter_self, newChunks_filter_self, List.nil_append,
      List.map_map]
    have hcomp : ((fun c : ChunkRec => (c.idx, c.text)) ∘
        (fun pc : ℕ × Str => ChunkRec.mk url pc.2 pc.1 (embedF pc.2))) = fun pc => pc := by
      funext pc
      rfl
    rw [hcomp]
    simp
  · rw [List.filter_append, remaining_filter_not, newChunks_filter_not, List.append_nil]
  · intro c hc hurl
    rcases List.mem_append.mp hc with h | h
    · have := List.of_mem_filter h
      simp [hurl] at this
    · obtain ⟨pc, hpc, rfl⟩ := List.mem_map.mp h
      have hsnd : pc.2 ∈ cs.enum.map Prod.snd := List.mem_map_of_mem Prod.snd hpc
      rw [List.enum_map_snd] at hsnd
      simpa using hsnd

/-- C5: with window 2000 and overlap 250, the `j`-th chunk is the
2000-character slice at offset `1750 * j` (stride 1750, length at most 2000);
every chunk that has a successor has length exactly 2000 and shares exactly
its last 250 characters with the successor's first 250; and the indexer's
6-chunk cap keeps at most 6 stored chunks per url. -/
theorem chunkText_window_overlap_cap (s : Str) (j : Nat) :
    (∀ cj, (chunkText s 2000 250)[j]? = some cj →
      cj = (s.drop (1750 * j)).take 2000 ∧ cj.length ≤ 2000) ∧
    (∀ cj cj1, (chunkText s 2000 250)[j]? = some cj →
      (chunkText s 2000 250)[j + 1]? = some cj1 →
      cj.length = 2000 ∧ cj.drop 1750 = cj1.take 250 ∧
      (cj.drop 1750).length = 250 ∧ (cj1.take 250).length = 250) ∧
    ((chunkText s 2000 250).take 6).length ≤ 6 ∧
    (∀ st : Store, ∀ url title : Str, ∀ hashF : Str → Str, ∀ embedF : Str → List ℚ, ∀ now : Nat,
      (st.chunks.filter (fun c => c.url == url)).length ≤ 6 →
      ((indexUrlCore st url s title hashF embedF now).1.chunks.filter
        (fun c => c.url == url)).length ≤ 6) := by
  have hfuel : s.length - 0 < s.length + 1 := by omega
  refine ⟨?_, ?_, ?_, ?_⟩
  · intro cj h
    have hj : j < (chunkText s 2000 250).length := (List.getElem?_eq_some.mp h).1
    have hpos := (chunkTextAux_getElem s (s.length + 1) 0 j hfuel hj).1
    rw [show chunkText s 2000 250 = chunkTextAux s 2000 250 (s.length + 1) 0 from rfl] at h
    rw [hpos] at h
    have hcj : cj = (s.drop (0 + 1750 * j)).take 2000 := (Option.some.inj h).symm
    constructor
    · simpa using hcj
    · rw [hcj]
      simp [List.length_take]
  · intro cj cj1 h h1
    have hj1 : j + 1 < (chunkText s 2000 250).length := (List.getElem?_eq_some.mp h1).1
    have hj : j < (chunkText s 2000 250).length := by omega
    have haux := chunkTextAux_getElem s (s.length + 1) 0 j hfuel hj
    have haux1 := chunkTextAux_getElem s (s.length + 1) 0 (j + 1) hfuel hj1
    have hlt : 0 + 1750 * j + 2000 < s.length := haux.2 hj1
    rw [show chunkText s 2000 250 = chunkTextAux s 2000 250 (s.length + 1) 0 from rfl] at h h1
    rw [haux.1] at h
    rw [haux1.1] at h1
    have hcj : cj = (s.drop (1750 * j)).take 2000 := by
      have := (Option.some.inj h).symm
      simpa using this
    have hcj1 : cj1 = (s.drop (1750 * (j + 1))).take 2000 := by
      have := (Option.some.inj h1).symm
      simpa using this
    have hlen : cj.length = 2000 := by
      rw [hcj]
      simp only [List.length_take, List.length_drop]
      omega
    refine ⟨hlen, ?_, ?_, ?_⟩
    · rw [hcj, hcj1, List.drop_take, List.drop_drop, List.take_take]
      have h1750 : 1750 * j + 1750 = 1750 * (j + 1) := by ring
      rw [h1750]
      norm_num
    · rw [List.length_drop, hlen]
    · rw [hcj1]
      simp only [List.length_take, List.length_drop]
      omega
  · simp [List.length_take]
  · intro st url title hashF embedF now hle
    by_cases h80 : s.length < 80
    · simpa [indexUrlCore, h80] using hle
    · rcases hfind : st.pages.find? (fun p => p.url == url) with _ | pr
      · have hout : indexUrlCore st url s title hashF embedF now
            = ({ pages := upsertPage st.pages url title (hashF s) now,
                 chunks := st.chunks.filter (fun c => !(c.url == url)) ++
                   ((chunkText s 2000 250).take 6).enum.map
                     (fun pc => ChunkRec.mk url pc.2 pc.1 (embedF pc.2)) },
               IndexStatus.added) := by
          simp only [indexUrlCore, if_neg h80, hfind]
        rw [hout]
        rw [List.filter_append, remaining_filter_self, newChunks_filter_self, List.nil_append]
        simp [List.enum_length, List.length_take]
      · by_cases hsame : (pr.hash == hashF s) = true
        · simpa [indexUrlCore, if_neg h80, hfind, hsame] using hle
        · have hne : (pr.hash == hashF s) = false := by simpa using hsame
          have hout : indexUrlCore st url s title hashF embedF now
              = ({ pages := upsertPage st.pages url title (hashF s) now,
                   chunks := st.chunks.filter (fun c => !(c.url == url)) ++
                     ((chunkText s 2000 250).take 6).enum.map
                       (fun pc => ChunkRec.mk url pc.2 pc.1 (embedF pc.2)) },
                 IndexStatus.updated) := by
            simp only [indexUrlCore, if_neg h80, hfind, hne, Bool.false_eq_true, if_false]
          rw [hout]
          rw [List.filter_append, remaining_filter_self, newChunks_filter_self, List.nil_append]
          simp [List.enum_length, List.length_take]

/-- Witness for C5 at the two-character input and chunk index 0. -/
theorem chunkText_window_overlap_cap_witness :
    str "ab" = ((str "ab").drop (1750 * 0)).take 2000 ∧ (str "ab").length ≤ 2000 :=
  (chunkText_window_overlap_cap (str "ab") 0).1 (str "ab") (by decide)

/-- C3: when the freshly computed content hash equals the stored page hash,
`indexUrl` reports `unchanged`, leaves the whole chunk collection (and in
particular the url's chunk set) untouched, and changes nothing about any
page except possibly an `updatedAt` timestamp. -/
theorem indexUrl_unchanged_frame (st : Store) (url text title : Str)
    (hashF : Str → Str) (embedF : Str → List ℚ) (now : Nat) (pr : PageRec)
    (hlen : 80 ≤ text.length)
    (hfind : st.pages.find? (fun p => p.url == url) = some pr)
    (hhash : pr.hash = hashF text) :
    (indexUrlCore st url text title hashF embedF now).2 = IndexStatus.unchanged ∧
    (indexUrlCore st url text title hashF embedF now).1.chunks = st.chunks ∧
    (indexUrlCore st url text title hashF embedF now).1.chunks.filter (fun c => c.url == url)
      = st.chunks.filter (fun c => c.url == url) ∧
    (indexUrlCore st url text title hashF embedF now).1.pages.map
        (fun p => (p.url, p.title, p.hash))
      = st.pages.map (fun p => (p.url, p.title, p.hash)) ∧
    (indexUrlCore st url text title hashF embedF now).1.pages.filter (fun p => !(p.url == url))
      = st.pages.filter (fun p => !(p.url == url)) := by
  have h80 : ¬ text.length < 80 := by omega
  have hbeq : (pr.hash == hashF text) = true := by rw [hhash]; simp
  have hout : indexUrlCore st url text title hashF embedF now
      = ({ st with pages := updateFirst (fun p => p.url == url) (fun p => { p with updatedAt := now }) st.pages }, IndexStatus.unchanged) := by
    simp only [indexUrlCore, if_neg h80, hfind, hbeq, if_true]
  rw [hout]
  refine ⟨rfl, rfl, rfl, ?_, ?_⟩
  · exact map_updateFirst (fun p => p.url == url) (fun p => { p with updatedAt := now })
      (fun p => (p.url, p.title, p.hash)) (fun a => rfl) st.pages
  · exact filter_not_updateFirst (fun p => p.url == url) (fun p => { p with updatedAt := now })
      (fun a => rfl) st.pages

/-- Witness for C3: re-indexing the demo page with an agreeing hash. -/
theorem indexUrl_unchanged_frame_witness :
    (indexUrlCore demoStore (str "https://law.temple.edu/a") demoText (str "T")
      demoHashSame demoEmbed 5).2 = IndexStatus.unchanged :=
  (indexUrl_unchanged_frame demoStore (str "https://law.temple.edu/a") demoText (str "T")
    demoHashSame demoEmbed 5 demoPage (by decide) (by decide) (by decide)).1

/-- C4: when no prior page exists or its stored hash differs, `indexUrl`
rebuilds the url's chunk set from the new text alone: afterwards the url's
chunks are exactly the capped chunking of the new text with sequential
0-based indices, chunks of other urls are untouched, no chunk for the url
carries a text outside the new chunking, and the status is `updated` when a
prior page existed and `added` otherwise. -/
theorem indexUrl_rebuild (st : Store) (url text title : Str)
    (hashF : Str → Str) (embedF : Str → List ℚ) (now : Nat)
    (hlen : 80 ≤ text.length)
    (hdiff : ((st.pages.find? (fun p => p.url == url)).all
      (fun pr => !(pr.hash == hashF text))) = true) :
    (indexUrlCore st url text title hashF embedF now).2
      = (if (st.pages.find? (fun p => p.url == url)).isSome then IndexStatus.updated
         else IndexStatus.added) ∧
    ((indexUrlCore st url text title hashF embedF now).1.chunks.filter
        (fun c => c.url == url)).map (fun c => (c.idx, c.text))
      = ((chunkText text 2000 250).take 6).enum ∧
    (indexUrlCore st url text title hashF embedF now).1.chunks.filter (fun c => !(c.url == url))
      = st.chunks.filter (fun c => !(c.url == url)) ∧
    (∀ c ∈ (indexUrlCore st url text title hashF embedF now).1.chunks,
      c.url = url → c.text ∈ (chunkText text 2000 250).take 6) := by
  have h80 : ¬ text.length < 80 := by omega
  have hspec := rebuild_chunks_spec st.chunks url ((chunkText text 2000 250).take 6) embedF
  rcases hfind : st.pages.find? (fun p => p.url == url) with _ | pr
  · have hout : indexUrlCore st url text title hashF embedF now
        = ({ pages := upsertPage st.pages url title (hashF text) now,
             chunks := st.chunks.filter (fun c => !(c.url == url)) ++
               ((chunkText text 2000 250).take 6).enum.map
                 (fun pc => ChunkRec.mk url pc.2 pc.1 (embedF pc.2)) },
           IndexStatus.added) := by
      simp only [indexUrlCore, if_neg h80, hfind]
    rw [hout]
    refine ⟨by simp [hfind], hspec.1, hspec.2.1, hspec.2.2⟩
  · have hne : (pr.hash == hashF text) = false := by
      rw [hfind] at hdiff
      simpa using hdiff
    have hout : indexUrlCore st url text title hashF embedF now
        = ({ pages := upsertPage st.pages url title (hashF text) now,
             chunks := st.chunks.filter (fun c => !(c.url == url)) ++
               ((chunkText text 2000 250).take 6).enum.map
                 (fun pc => ChunkRec.mk url pc.2 pc.1 (embedF pc.2)) },
           IndexStatus.updated) := by
      simp only [indexUrlCore, if_neg h80, hfind, hne, Bool.false_eq_true, if_false]
    rw [hout]
    refine ⟨by simp [hfind], hspec.1, hspec.2.1, hspec.2.2⟩

/-- Witness for C4: re-indexing the demo page with a disagreeing hash. -/
theorem indexUrl_rebuild_witness :
    (indexUrlCore demoStore (str "https://law.temple.edu/a") demoText (str "T")
      demoHashNew demoEmbed 5).2
      = (if (demoStore.pages.find?
          (fun p => p.url == str "https://law.temple.edu/a")).isSome then IndexStatus.updated
         else IndexStatus.added) :=
  (indexUrl_rebuild demoStore (str "https://law.temple.edu/a") demoText (str "T")
    demoHashNew demoEmbed 5 (by decide) (by decide)).1

/-- C9: when every candidate sits strictly below the 0.12 floor, the
selection step still returns the first 12 entries of the ranked list — for a
descending-sorted list these are exactly the top 12 by score — and never an
empty context while candidates exist. -/
theorem selectTop_below_floor (ranked : List Scored)
    (hall : ∀ r ∈ ranked, r.score < MIN_SIM) :
    selectTop ranked = ranked.take 12 ∧
    (selectTop ranked).length = min 12 ranked.length ∧
    (ranked ≠ [] → selectTop ranked ≠ []) ∧
    (ranked.Pairwise (fun a b => b.score ≤ a.score) →
      (selectTop ranked).Pairwise (fun a b => b.score ≤ a.score) ∧
      ∀ x ∈ selectTop ranked, ∀ y ∈ ranked.drop 12, y.score ≤ x.score) := by
  have hfil : ranked.filter (fun r => MIN_SIM ≤ r.score) = [] := by
    rw [List.filter_eq_nil_iff]
    intro a ha
    simpa using not_le.mpr (hall a ha)
  have hsel : selectTop ranked = ranked.take 12 := by
    simp [selectTop, hfil]
  refine ⟨hsel, ?_, ?_, ?_⟩
  · rw [hsel, List.length_take]
  · intro hne
    rw [hsel]
    simp [List.take_eq_nil_iff, hne]
  · intro hsort
    refine ⟨?_, ?_⟩
    · rw [hsel]
      exact List.Pairwise.sublist (List.take_sublist 12 ranked) hsort
    · intro x hx y hy
      rw [hsel] at hx
      have hsplit := hsort
      rw [← List.take_append_drop 12 ranked] at hsplit
      exact (List.pairwise_append.mp hsplit).2.2 x hx y hy

/-- Witness for C9: a single candidate scoring 0 (below the 0.12 floor). -/
theorem selectTop_below_floor_witness :
    selectTop [Scored.mk (str "u") (str "t") 0] = [Scored.mk (str "u") (str "t") 0].take 12 :=
  (selectTop_below_floor [Scored.mk (str "u") (str "t") 0] (by decide)).1

/-- Counterexample for C6: `cosine` is a total function that, on vectors of
different lengths, silently returns the similarity value of the
length-truncated vectors — there is no error condition. The extra trailing
999 component is ignored entirely. -/
theorem cosine_mismatch_counterexample :
    ([(1 : ℚ), 2].length ≠ [(1 : ℚ), 2, 999].length) ∧
    cosine id [1, 2] [1, 2, 999] = cosine id [1, 2] [1, 2] :=
  ⟨by decide, rfl⟩

/-- Both vectors truncated to the common length yield the same zip. -/
theorem zip_take_min (a : List ℚ) : ∀ b : List ℚ,
    (a.take (min a.length b.length)).zip (b.take (min a.length b.length)) = a.zip b := by
  induction a with
  | nil => intro b; simp
  | cons x xs ih =>
    intro b
    cases b with
    | nil => simp
    | cons y ys => simp [Nat.succ_min_succ, ih ys]

/-- C6 amended: on mismatched lengths, `cosine` silently truncates both
vectors to the shorter length — all three accumulators range only over the
common prefix — and returns that truncated similarity value (with 0 as the
zero-norm guard); no error condition exists, for any choice of `Math.sqrt`. -/
theorem cosine_truncates (sqrt : ℚ → ℚ) (a b : List ℚ) :
    cosine sqrt a b
      = cosine sqrt (a.take (min a.length b.length)) (b.take (min a.length b.length)) := by
  simp only [cosine, zip_take_min]

/-- Full characterization of the best-candidate loop of the semantic
override lookup: a returned best dominates every embedded candidate of the
scanned list as well as the incoming accumulator, and stems from the list or
from the accumulator. -/
theorem bestSemanticAux_spec (cos : List ℚ → List ℚ → ℚ) (qvec : List ℚ) :
    ∀ (l : List OverrideDoc) (b : Option (OverrideDoc × ℚ)) (d : OverrideDoc) (s : ℚ),
      bestSemanticAux cos qvec l b = some (d, s) →
      (∀ c ∈ l, ∀ e, c.questionEmbedding = some e → cos qvec e ≤ s) ∧
      (b = some (d, s) ∨ (d ∈ l ∧ ∃ e, d.questionEmbedding = some e ∧ s = cos qvec e)) ∧
      (∀ p : OverrideDoc × ℚ, b = some p → p.2 ≤ s) := by
  intro l
  induction l with
  | nil =>
    intro b d s h
    rw [bestSemanticAux] at h
    refine ⟨by simp, Or.inl h, ?_⟩
    intro p hp
    rw [hp] at h
    rw [Option.some.inj h]
  | cons c t ih =>
    intro b d s h
    rcases hemb : c.questionEmbedding with _ | e
    · rw [bestSemanticAux, hemb] at h
      obtain ⟨h1, h2, h3⟩ := ih b d s h
      refine ⟨?_, ?_, h3⟩
      · intro c' hc' e' he'
        rcases List.mem_cons.mp hc' with rfl | hc'
        · rw [hemb] at he'
          cases he'
        · exact h1 c' hc' e' he'
      · rcases h2 with h2 | ⟨hd, he⟩
        · exact Or.inl h2
        · exact Or.inr ⟨List.mem_cons_of_mem _ hd, he⟩
    · cases b with
      | none =>
        rw [bestSemanticAux, hemb] at h
        obtain ⟨h1, h2, h3⟩ := ih (some (c, cos qvec e)) d s h
        have hce : cos qvec e ≤ s := h3 (c, cos qvec e) rfl
        refine ⟨?_, ?_, ?_⟩
        · intro c' hc' e' he'
          rcases List.mem_cons.mp hc' with rfl | hc'
          · rw [hemb] at he'
            rw [← Option.some.inj he']
            exact hce
          · exact h1 c' hc' e' he'
        · rcases h2 with h2 | ⟨hd, he⟩
          · obtain ⟨rfl, rfl⟩ := Prod.mk.injEq .. |>.mp (Option.some.inj h2)
            exact Or.inr ⟨List.mem_cons_self _ _, ⟨e, hemb, rfl⟩⟩
          · exact Or.inr ⟨List.mem_cons_of_mem _ hd, he⟩
        · intro p hp
          exact absurd hp (by simp)
      | some bb =>
        by_cases hlt : bb.2 < cos qvec e
        · rw [bestSemanticAux, hemb] at h
          simp only [if_pos hlt] at h
          obtain ⟨h1, h2, h3⟩ := ih (some (c, cos qvec e)) d s h
          have hce : cos qvec e ≤ s := h3 (c, cos qvec e) rfl
          refine ⟨?_, ?_, ?_⟩
          · intro c' hc' e' he'
            rcases List.mem_cons.mp hc' with rfl | hc'
            · rw [hemb] at he'
              rw [← Option.some.inj he']
              exact hce
            · exact h1 c' hc' e' he'
          · rcases h2 with h2 | ⟨hd, he⟩
            · obtain ⟨rfl, rfl⟩ := Prod.mk.injEq .. |>.mp (Option.some.inj h2)
              exact Or.inr ⟨List.mem_cons_self _ _, ⟨e, hemb, rfl⟩⟩
            · exact Or.inr ⟨List.mem_cons_of_mem _ hd, he⟩
          · intro p hp
            rw [← Option.some.inj hp]
            exact le_trans (le_of_lt hlt) hce
        · rw [bestSemanticAux, hemb] at h
          simp only [if_neg hlt] at h
          obtain ⟨h1, h2, h3⟩ := ih (some bb) d s h
          have hbb : bb.2 ≤ s := h3 bb rfl
          refine ⟨?_, ?_, ?_⟩
          · intro c' hc' e' he'
            rcases List.mem_cons.mp hc' with rfl | hc'
            · rw [hemb] at he'
              rw [← Option.some.inj he']
              exact le_trans (not_lt.mp hlt) hbb
            · exact h1 c' hc' e' he'
          · rcases h2 with h2 | ⟨hd, he⟩
            · exact Or.inl h2
            · exact Or.inr ⟨List.mem_cons_of_mem _ hd, he⟩
          · intro p hp
            rw [← Option.some.inj hp]
            exact hbb

/-- A non-empty trimmed question reaches the resolution step. -/
theorem ask_eq_resolve (sessionsDb : List Session) (overrides : List OverrideDoc)
    (env : AskEnv) (q : Str) (clientSid : Option Str)
    (hq : (askQuery q).isEmpty = false) :
    ask sessionsDb overrides env q clientSid
      = askResolve env (askSid env clientSid) (askK0 clientSid + 1)
          (askSessions1 sessionsDb env q clientSid) (askTop sessionsDb env q clientSid)
          overrides (askNormQuery q) := by
  simp [ask, hq]

/-- C1: a forced exact override with a non-empty stored answer
short-circuits the request: the response carries the stored answer verbatim,
the single sentinel source, and the generative service is never invoked. -/
theorem ask_forced_exact_short_circuits (sessionsDb : List Session)
    (overrides : List OverrideDoc) (env : AskEnv) (q : Str) (clientSid : Option Str)
    (o : OverrideDoc) (a : Str)
    (hq : (askQuery q).isEmpty = false)
    (hfind : exactOverrideLookup overrides (askNormQuery q) = some o)
    (hforce : o.force = true)
    (hans : o.answer = some a)
    (hne : a ≠ []) :
    (ask sessionsDb overrides env q clientSid).answer = a ∧
    (ask sessionsDb overrides env q clientSid).sources = [str "Reviewed Answer"] ∧
    (ask sessionsDb overrides env q clientSid).genCalled = false ∧
    (ask sessionsDb overrides env q clientSid).status = 200 := by
  rw [ask_eq_resolve sessionsDb overrides env q clientSid hq]
  have htru : truthyS (some a) = true := by
    simp [truthyS, List.isEmpty_iff, hne]
  simp [askResolve, hfind, forcedOutcome, jsNullish, hans, hforce, htru]

/-- Witness for C1: the demo forced override at its own question. -/
theorem ask_forced_exact_short_circuits_witness :
    (ask [] [demoForced] demoEnv (str "When is orientation ") none).answer
        = str "September 1" ∧
    (ask [] [demoForced] demoEnv (str "When is orientation ") none).sources
        = [str "Reviewed Answer"] ∧
    (ask [] [demoForced] demoEnv (str "When is orientation ") none).genCalled = false ∧
    (ask [] [demoForced] demoEnv (str "When is orientation ") none).status = 200 :=
  ask_forced_exact_short_circuits [] [demoForced] demoEnv (str "When is orientation ") none
    demoForced (str "September 1") (by decide) (by decide) (by decide) (by decide) (by decide)

/-- C2: whenever the override lookup yields no forced record — in particular
when a matching non-forced override exists, at any retrieval confidence, and
when confidence is low with no forced override — the resolver proceeds to
generation: the returned answer is the generated answer (never the
override's stored answer) and the sources are the retrieved urls. -/
theorem ask_nonforced_override_generates (sessionsDb : List Session)
    (overrides : List OverrideDoc) (env : AskEnv) (q : Str) (clientSid : Option Str)
    (hq : (askQuery q).isEmpty = false)
    (hex : ∀ o, exactOverrideLookup overrides (askNormQuery q) = some o → o.force = false)
    (hsem : exactOverrideLookup overrides (askNormQuery q) = none →
      ∀ o, semanticOverride env.cos env.qvec overrides = some o → o.force = false) :
    (ask sessionsDb overrides env q clientSid).answer = env.genAnswer ∧
    (ask sessionsDb overrides env q clientSid).genCalled = true ∧
    (ask sessionsDb overrides env q clientSid).sources
      = (askTop sessionsDb env q clientSid).map Scored.url := by
  rw [ask_eq_resolve sessionsDb overrides env q clientSid hq]
  rcases hE : exactOverrideLookup overrides (askNormQuery q) with _ | o
  · rcases hS : semanticOverride env.cos env.qvec overrides with _ | o
    · simp [askResolve, hE, hS, genOutcome]
    · have hf := hsem hE o hS
      simp [askResolve, hE, hS, hf, genOutcome]
  · have hf := hex o hE
    simp [askResolve, hE, hf, genOutcome]

/-- Witness for C2: no override present at all. -/
theorem ask_nonforced_override_generates_witness :
    (ask [] [] demoEnv (str "hi") none).answer = demoEnv.genAnswer ∧
    (ask [] [] demoEnv (str "hi") none).genCalled = true ∧
    (ask [] [] demoEnv (str "hi") none).sources
      = (askTop [] demoEnv (str "hi") none).map Scored.url :=
  ask_nonforced_override_generates [] [] demoEnv (str "hi") none (by decide)
    (fun o h => Option.noConfusion h) (fun _ o h => Option.noConfusion h)

/-- Counterexample for C7: the request "What is X" has no forced exact
match (its only exact match `c7A` is non-forced), a forced semantic
candidate `c7B` exists whose similarity 1 clears the 0.82 threshold, yet the
semantic lookup does not run — the code gates it on the absence of any
exact match, not of a forced one. -/
theorem ask_semantic_trigger_counterexample :
    (([c7A, c7B].filter (fun o =>
        (jsToLower o.normQuestion == jsToLower (askNormQuery (str "What is X")) ||
          jsToLower o.question == jsToLower (askNormQuery (str "What is X"))) && o.force)).isEmpty
      = true) ∧
    c7B.force = true ∧ c7Env.cos c7Env.qvec [1] = 1 ∧ OVERRIDE_EMB_THRESHOLD ≤ 1 ∧
    (ask [] [c7A, c7B] c7Env (str "What is X") (some (str "s1"))).semanticRan = false := by
  decide

/-- C7 amended: the semantic lookup runs exactly when the exact lookup
(forced or not) finds nothing; when it runs, it keeps the single candidate
with the highest similarity among the records carrying a question embedding,
and a best candidate below the 0.82 threshold yields no semantic match, so
the request falls through to generation. -/
theorem ask_semantic_lookup_policy (sessionsDb : List Session)
    (overrides : List OverrideDoc) (env : AskEnv) (q : Str) (clientSid : Option Str)
    (hq : (askQuery q).isEmpty = false) :
    ((ask sessionsDb overrides env q clientSid).semanticRan = true ↔
      exactOverrideLookup overrides (askNormQuery q) = none) ∧
    (∀ d s, bestSemanticAux env.cos env.qvec
        (overrides.filter (fun o => o.questionEmbedding.isSome)) none = some (d, s) →
      d ∈ overrides.filter (fun o => o.questionEmbedding.isSome) ∧
      ∀ c ∈ overrides.filter (fun o => o.questionEmbedding.isSome), ∀ e,
        c.questionEmbedding = some e → env.cos env.qvec e ≤ s) ∧
    (exactOverrideLookup overrides (askNormQuery q) = none →
      (∀ d s, bestSemanticAux env.cos env.qvec
          (overrides.filter (fun o => o.questionEmbedding.isSome)) none = some (d, s) →
        s < OVERRIDE_EMB_THRESHOLD) →
      semanticOverride env.cos env.qvec overrides = none ∧
      (ask sessionsDb overrides env q clientSid).genCalled = true) := by
  refine ⟨?_, ?_, ?_⟩
  · rw [ask_eq_resolve sessionsDb overrides env q clientSid hq]
    rcases hE : exactOverrideLookup overrides (askNormQuery q) with _ | o
    · rcases hS : semanticOverride env.cos env.qvec overrides with _ | o
      · simp [askResolve, hE, hS, genOutcome]
      · by_cases hf : o.force = true <;>
          simp [askResolve, hE, hS, hf, forcedOutcome, genOutcome]
    · by_cases hg : (o.force && (truthyS o.answer || truthyS o.assistantContent)) = true
      · simp [askResolve, hE, hg, forcedOutcome]
      · by_cases hf : o.force = true
        · simp [askResolve, hE, hg, hf, forcedOutcome]
        · simp [askResolve, hE, hg, hf, genOutcome]
  · intro d s h
    have hspec := bestSemanticAux_spec env.cos env.qvec
      (overrides.filter (fun o => o.questionEmbedding.isSome)) none d s h
    refine ⟨?_, hspec.1⟩
    rcases hspec.2.1 with h2 | ⟨hd, _⟩
    · exact absurd h2 (by simp)
    · exact hd
  · intro hE hlow
    have hsem : semanticOverride env.cos env.qvec overrides = none := by
      unfold semanticOverride
      rcases hB : bestSemanticAux env.cos env.qvec
          (overrides.filter (fun o => o.questionEmbedding.isSome)) none with _ | b
      · simp [hB]
      · have hb := hlow b.1 b.2 (by rw [hB])
        simp [hB, not_le.mpr hb]
    refine ⟨hsem, ?_⟩
    rw [ask_eq_resolve sessionsDb overrides env q clientSid hq]
    simp [askResolve, hE, hsem, genOutcome]

/-- Witness for C7's amended statement: empty override store. -/
theorem ask_semantic_lookup_policy_witness :
    (ask [] [] demoEnv (str "hi") none).semanticRan = true ↔
      exactOverrideLookup [] (askNormQuery (str "hi")) = none :=
  (ask_semantic_lookup_policy [] [] demoEnv (str "hi") none (by decide)).1

/-- C8 (code divergence): on the forced-override path the response `mid`
comes from `makeMid()` ("u1") while `appendTurn` stores a different
`randomUUID()` ("u2") on the persisted assistant turn, so the returned id
does not identify any stored turn. -/
theorem ask_forced_mid_mismatch :
    (ask [] [demoForced] demoEnv (str "When is orientation") (some (str "s1"))).mid
        = str "u1" ∧
    (ask [] [demoForced] demoEnv (str "When is orientation") (some (str "s1"))).sessions
      = [Session.mk (str "s1")
          [Turn.mk (str "u0") (str "user") (str "When is orientation") [],
            Turn.mk (str "u2") (str "assistant") (str "September 1") [str "Reviewed Answer"]]] ∧
    ¬ str "u1" = str "u2" := by
  decide

/-- C10: an empty or whitespace-only question is rejected with the
validation error before any side effect: the sessions store is untouched and
no external service (normalization, embedding, generation) is invoked. -/
theorem ask_empty_query_no_side_effects (sessionsDb : List Session)
    (overrides : List OverrideDoc) (env : AskEnv) (q : Str) (clientSid : Option Str)
    (hq : jsTrim q = []) :
    (ask sessionsDb overrides env q clientSid).status = 400 ∧
    (ask sessionsDb overrides env q clientSid).errorMsg = some (str "Empty question") ∧
    (ask sessionsDb overrides env q clientSid).sessions = sessionsDb ∧
    (ask sessionsDb overrides env q clientSid).normalizeCalled = false ∧
    (ask sessionsDb overrides env q clientSid).embedCalled = false ∧
    (ask sessionsDb overrides env q clientSid).genCalled = false := by
  have hq' : (askQuery q).isEmpty = true := by simp [askQuery, hq]
  simp [ask, hq', badOutcome]

/-- Witness for C10: a whitespace-only question. -/
theorem ask_empty_query_no_side_effects_witness :
    (ask [] [] demoEnv (str "  ") none).status = 400 ∧
    (ask [] [] demoEnv (str "  ") none).errorMsg = some (str "Empty question") ∧
    (ask [] [] demoEnv (str "  ") none).sessions = [] ∧
    (ask [] [] demoEnv (str "  ") none).normalizeCalled = false ∧
    (ask [] [] demoEnv (str "  ") none).embedCalled = false ∧
    (ask [] [] demoEnv (str "  ") none).genCalled = false :=
  ask_empty_query_no_side_effects [] [] demoEnv (str "  ") none (by decide)

end TempleLaw
